import Mathlib

/-
Verification of the analog-clock program (src/analog_clock.py).

The program's numeric code (the coordinate `mapper`, the hand-angle
formulas) works on Python floats; it is embedded here over exact rational
arithmetic (ℚ), with angles represented by their coefficient of π (every
angle the program produces is a rational multiple of π).  Strings are
embedded as `List Char`, with the regular expression of
`QuestionWindow.validate` compiled by hand into a backtracking matcher
that follows Python's leftmost-greedy semantics for this concrete
pattern.  Stateful methods become explicit state-passing functions.
-/

namespace AnalogClock

/-- A rectangle `(x_min, y_min, x_max, y_max)`, used for both the logical
world window and the pixel viewport (source: the 4-tuples passed to
`mapper.__init__`). -/
structure Rect where
  xmin : ℚ
  ymin : ℚ
  xmax : ℚ
  ymax : ℚ
deriving DecidableEq

/-- The derived constants of class `mapper`: the uniform scale `f` and the
two offsets `c_1`, `c_2` (source: `mapper.__init__`, lines 56–69). -/
structure Mapper where
  f : ℚ
  c_1 : ℚ
  c_2 : ℚ
deriving DecidableEq

/-- `mapper.__init__`: `f = min(f_x, f_y)` where `f_x`, `f_y` are the
width and height ratios, and `c_1`, `c_2` place the world centre on the
viewport centre. -/
def mapper (world viewport : Rect) : Mapper :=
  let f_x : ℚ := (viewport.xmax - viewport.xmin) / (world.xmax - world.xmin)
  let f_y : ℚ := (viewport.ymax - viewport.ymin) / (world.ymax - world.ymin)
  let f := if f_x ≤ f_y then f_x else f_y
  let x_c := (world.xmin + world.xmax) / 2
  let y_c := (world.ymin + world.ymax) / 2
  let X_c := (viewport.xmin + viewport.xmax) / 2
  let Y_c := (viewport.ymin + viewport.ymax) / 2
  { f := f, c_1 := X_c - f * x_c, c_2 := Y_c - f * y_c }

/-- `mapper.__windowToViewport`: maps a world point to screen coordinates,
flipping the Y axis (`Y = f * -y + c_2`). -/
def windowToViewport (T : Mapper) (x y : ℚ) : ℚ × ℚ :=
  (T.f * x + T.c_1, T.f * (-y) + T.c_2)

/-- The width ratio `f_x` of `mapper.__init__`. -/
def f_x (world viewport : Rect) : ℚ :=
  (viewport.xmax - viewport.xmin) / (world.xmax - world.xmin)

/-- The height ratio `f_y` of `mapper.__init__`. -/
def f_y (world viewport : Rect) : ℚ :=
  (viewport.ymax - viewport.ymin) / (world.ymax - world.ymin)

lemma mapper_f_eq (world viewport : Rect) :
    (mapper world viewport).f = min (f_x world viewport) (f_y world viewport) := by
  rw [min_def]
  rfl

lemma mapper_c_1_eq (world viewport : Rect) :
    (mapper world viewport).c_1 =
      (viewport.xmin + viewport.xmax) / 2 -
        (mapper world viewport).f * ((world.xmin + world.xmax) / 2) := by
  rfl

lemma mapper_c_2_eq (world viewport : Rect) :
    (mapper world viewport).c_2 =
      (viewport.ymin + viewport.ymax) / 2 -
        (mapper world viewport).f * ((world.ymin + world.ymax) / 2) := by
  rfl

lemma mapper_f_pos (world viewport : Rect)
    (hx : world.xmin < world.xmax) (hy : world.ymin < world.ymax)
    (hX : viewport.xmin < viewport.xmax) (hY : viewport.ymin < viewport.ymax) :
    0 < (mapper world viewport).f := by
  rw [mapper_f_eq]
  exact lt_min (div_pos (sub_pos.2 hX) (sub_pos.2 hx)) (div_pos (sub_pos.2 hY) (sub_pos.2 hy))

lemma mapper_scale_x (world viewport : Rect)
    (hx : world.xmin < world.xmax) :
    (mapper world viewport).f * (world.xmax - world.xmin) ≤
      viewport.xmax - viewport.xmin := by
  rw [mapper_f_eq]
  have hΔx : (0 : ℚ) < world.xmax - world.xmin := sub_pos.2 hx
  calc min (f_x world viewport) (f_y world viewport) * (world.xmax - world.xmin)
      ≤ f_x world viewport * (world.xmax - world.xmin) :=
        mul_le_mul_of_nonneg_right (min_le_left _ _) hΔx.le
    _ = viewport.xmax - viewport.xmin := div_mul_cancel₀ _ hΔx.ne'

lemma mapper_scale_y (world viewport : Rect)
    (hy : world.ymin < world.ymax) :
    (mapper world viewport).f * (world.ymax - world.ymin) ≤
      viewport.ymax - viewport.ymin := by
  rw [mapper_f_eq]
  have hΔy : (0 : ℚ) < world.ymax - world.ymin := sub_pos.2 hy
  calc min (f_x world viewport) (f_y world viewport) * (world.ymax - world.ymin)
      ≤ f_y world viewport * (world.ymax - world.ymin) :=
        mul_le_mul_of_nonneg_right (min_le_right _ _) hΔy.le
    _ = viewport.ymax - viewport.ymin := div_mul_cancel₀ _ hΔy.ne'

/-- C2 (amended): on rectangles of positive width and height (the spec's
Rectangle invariant `xmax > xmin`, `ymax > ymin`), and provided the world
rectangle is vertically centred on the origin (`ymin = -ymax`, as the
program's fixed world `[-1,-1,1,1]` is), the mapper's scale is
`min (f_x, f_y)`, the images of the four world corners form an axis-aligned
sub-rectangle of the viewport (equal x-coordinates along vertical edges,
equal y-coordinates along horizontal edges), that rectangle is centred in
the viewport (corner sums equal the viewport's corner sums), and every
corner image stays inside the viewport bounds.  The vertical-centring
hypothesis is needed because `c_2 = Y_c - f*y_c` is combined with the
flipped map `Y = -f*y + c_2`. -/
theorem mapper_corners_centered_and_bounded (world viewport : Rect)
    (hx : world.xmin < world.xmax) (hy : world.ymin < world.ymax)
    (hX : viewport.xmin < viewport.xmax) (hY : viewport.ymin < viewport.ymax)
    (hyc : world.ymin = -world.ymax) :
    (mapper world viewport).f = min (f_x world viewport) (f_y world viewport) ∧
    (windowToViewport (mapper world viewport) world.xmin world.ymin).1 =
      (windowToViewport (mapper world viewport) world.xmin world.ymax).1 ∧
    (windowToViewport (mapper world viewport) world.xmax world.ymin).1 =
      (windowToViewport (mapper world viewport) world.xmax world.ymax).1 ∧
    (windowToViewport (mapper world viewport) world.xmin world.ymin).2 =
      (windowToViewport (mapper world viewport) world.xmax world.ymin).2 ∧
    (windowToViewport (mapper world viewport) world.xmin world.ymax).2 =
      (windowToViewport (mapper world viewport) world.xmax world.ymax).2 ∧
    (windowToViewport (mapper world viewport) world.xmin world.ymin).1 +
      (windowToViewport (mapper world viewport) world.xmax world.ymax).1 =
      viewport.xmin + viewport.xmax ∧
    (windowToViewport (mapper world viewport) world.xmin world.ymin).2 +
      (windowToViewport (mapper world viewport) world.xmax world.ymax).2 =
      viewport.ymin + viewport.ymax ∧
    (∀ x y : ℚ, (x = world.xmin ∨ x = world.xmax) → (y = world.ymin ∨ y = world.ymax) →
      viewport.xmin ≤ (windowToViewport (mapper world viewport) x y).1 ∧
      (windowToViewport (mapper world viewport) x y).1 ≤ viewport.xmax ∧
      viewport.ymin ≤ (windowToViewport (mapper world viewport) x y).2 ∧
      (windowToViewport (mapper world viewport) x y).2 ≤ viewport.ymax) := by
  have hf := mapper_f_pos world viewport hx hy hX hY
  have hkx := mapper_scale_x world viewport hx
  have hky := mapper_scale_y world viewport hy
  have hc1 := mapper_c_1_eq world viewport
  have hc2 := mapper_c_2_eq world viewport
  have hfx : 0 < (mapper world viewport).f * (world.xmax - world.xmin) :=
    mul_pos hf (sub_pos.2 hx)
  have hfy : 0 < (mapper world viewport).f * (world.ymax - world.ymin) :=
    mul_pos hf (sub_pos.2 hy)
  rw [hyc] at hky hfy
  refine ⟨mapper_f_eq world viewport, rfl, rfl, ?_, ?_, ?_, ?_, ?_⟩
  · simp [windowToViewport]
  · simp [windowToViewport]
  · simp only [windowToViewport]
    rw [hc1]; ring
  · simp only [windowToViewport]
    rw [hc2, hyc]; ring
  · rintro x y (rfl | rfl) (rfl | rfl) <;>
      simp only [windowToViewport] <;>
      rw [hc1, hc2, hyc] <;>
      refine ⟨by linarith, by linarith, by linarith, by linarith⟩

/-- Witness for C2: the program's own world square `[-1,-1,1,1]` and the
default 400×400 canvas viewport with padding 25; the scale conjunct is
extracted from the amended theorem applied there. -/
theorem mapper_corners_centered_and_bounded_witness :
    ((-1 : ℚ) < 1 ∧ (25 : ℚ) < 375 ∧ (Rect.mk (-1) (-1) 1 1).ymin = -(Rect.mk (-1) (-1) 1 1).ymax) ∧
    (mapper ⟨-1, -1, 1, 1⟩ ⟨25, 25, 375, 375⟩).f =
      min (f_x ⟨-1, -1, 1, 1⟩ ⟨25, 25, 375, 375⟩) (f_y ⟨-1, -1, 1, 1⟩ ⟨25, 25, 375, 375⟩) :=
  ⟨⟨by decide, by decide, rfl⟩,
    (mapper_corners_centered_and_bounded ⟨-1, -1, 1, 1⟩ ⟨25, 25, 375, 375⟩
      (by decide) (by decide) (by decide) (by decide) rfl).1⟩

/-- Counterexample to C2 as stated: for the world rectangle `(0,0,2,2)`
(positive width and height, but not vertically centred on the origin) and
viewport `(0,0,200,200)`, the image of the world corner `(0,2)` has
viewport y-coordinate `-200`, which lies outside the viewport's y-range
`[0,200]`, and the corner images are not vertically centred. -/
theorem mapper_corners_counterexample :
    ((0 : ℚ) < 2 ∧ (0 : ℚ) < 200) ∧
    (windowToViewport (mapper ⟨0, 0, 2, 2⟩ ⟨0, 0, 200, 200⟩) 0 2).2 = -200 ∧
    ¬ ((0 : ℚ) ≤ (windowToViewport (mapper ⟨0, 0, 2, 2⟩ ⟨0, 0, 200, 200⟩) 0 2).2) ∧
    (windowToViewport (mapper ⟨0, 0, 2, 2⟩ ⟨0, 0, 200, 200⟩) 0 0).2 +
      (windowToViewport (mapper ⟨0, 0, 2, 2⟩ ⟨0, 0, 200, 200⟩) 2 2).2 ≠ 0 + 200 := by
  norm_num [mapper, windowToViewport]

/-- The time fields of `ClockTest` (`self.hour`, `self.minute`,
`self.second`), read by the renderer and mutated by `animate` and by the
question setup in `poll`. -/
structure ClockState where
  hour : ℕ
  minute : ℕ
  second : ℕ
deriving DecidableEq

/-- One invocation of `ClockTest.animate` (lines 276–290): if the optional
stop target equals the current `(hour, minute)`, it only redraws and
returns without rescheduling (second component `true`); otherwise
`minute += 1`, and at `minute == 60` the minute resets and the hour
advances modulo 12, then the callback is rescheduled (`false`). -/
def animate (stop_hour_minute : Option (ℕ × ℕ)) (st : ClockState) :
    ClockState × Bool :=
  if stop_hour_minute = some (st.hour, st.minute) then (st, true)
  else if st.minute + 1 = 60 then
    ({ st with minute := 0, hour := (st.hour + 1) % 12 }, false)
  else
    ({ st with minute := st.minute + 1 }, false)

/-- `MIN_ACC`, the minute accuracy of generated questions (line 25). -/
def MIN_ACC : ℕ := 15

/-- The random question setup in `ClockTest.poll` (lines 297–298):
`self.hour = random.randint(0, 11)` and
`self.minute = random.randint(0, int(60/MIN_ACC)-1) * MIN_ACC`, with the
two random draws passed in as `r1`, `r2`. -/
def pollSetTime (r1 r2 : ℕ) (st : ClockState) : ClockState :=
  { st with hour := r1, minute := r2 * MIN_ACC }

/-- C5: an `animate` tick whose stop target does not match advances the
minute by one, carrying into the hour at 60 and wrapping the hour modulo
12; from `(11, 59)` one tick yields `(0, 0)`; and a tick whose stop target
equals the current `(hour, minute)` returns the state unchanged and stops
(no rescheduling). -/
theorem animate_tick_spec :
    (∀ (st : ClockState) (stop : Option (ℕ × ℕ)),
      stop ≠ some (st.hour, st.minute) →
      (animate stop st).2 = false ∧
      (if st.minute + 1 = 60
        then (animate stop st).1.hour = (st.hour + 1) % 12 ∧
          (animate stop st).1.minute = 0
        else (animate stop st).1.hour = st.hour ∧
          (animate stop st).1.minute = st.minute + 1) ∧
      (animate stop st).1.second = st.second) ∧
    (∀ (stop : Option (ℕ × ℕ)) (s : ℕ), stop ≠ some (11, 59) →
      animate stop ⟨11, 59, s⟩ = (⟨0, 0, s⟩, false)) ∧
    (∀ st : ClockState, animate (some (st.hour, st.minute)) st = (st, true)) := by
  refine ⟨?_, ?_, ?_⟩
  · intro st stop hne
    simp only [animate, if_neg hne]
    split <;> simp
  · intro stop s hne
    simp [animate, hne]
  · intro st
    simp [animate]

/-- Witness for C5 at `(11, 59)` with no stop target. -/
theorem animate_tick_spec_witness :
    (none ≠ some ((11 : ℕ), (59 : ℕ))) ∧
    animate none ⟨11, 59, 0⟩ = (⟨0, 0, 0⟩, false) :=
  ⟨by decide, animate_tick_spec.2.1 none 0 (by decide)⟩

/-- C6: from any state with `hour ∈ [0,11]` and `minute ∈ [0,59]`, both
time-mutating operations — the `animate` tick and the question setup of
`poll` (whose random draws satisfy `r1 ≤ 11` and
`r2 ≤ 60/MIN_ACC - 1`) — keep `hour ∈ [0,11]` and `minute ∈ [0,59]`. -/
theorem clock_state_invariant (st : ClockState)
    (h1 : st.hour ≤ 11) (h2 : st.minute ≤ 59) :
    (∀ stop : Option (ℕ × ℕ),
      (animate stop st).1.hour ≤ 11 ∧ (animate stop st).1.minute ≤ 59) ∧
    (∀ r1 r2 : ℕ, r1 ≤ 11 → r2 ≤ 60 / MIN_ACC - 1 →
      (pollSetTime r1 r2 st).hour ≤ 11 ∧ (pollSetTime r1 r2 st).minute ≤ 59) := by
  constructor
  · intro stop
    simp only [animate]
    split
    · exact ⟨h1, h2⟩
    · split <;> simp <;> omega
  · intro r1 r2 hr1 hr2
    simp only [pollSetTime, MIN_ACC] at *
    exact ⟨hr1, by omega⟩

/-- Witness for C6 at the state `(3, 45, 0)` with a tick and a draw. -/
theorem clock_state_invariant_witness :
    ((3 : ℕ) ≤ 11 ∧ (45 : ℕ) ≤ 59 ∧ (2 : ℕ) ≤ 11 ∧ (3 : ℕ) ≤ 60 / MIN_ACC - 1) ∧
    ((animate none ⟨3, 45, 0⟩).1.hour ≤ 11 ∧ (animate none ⟨3, 45, 0⟩).1.minute ≤ 59) ∧
    ((pollSetTime 2 3 ⟨3, 45, 0⟩).hour ≤ 11 ∧ (pollSetTime 2 3 ⟨3, 45, 0⟩).minute ≤ 59) :=
  ⟨⟨by decide, by decide, by decide, by decide⟩,
    (clock_state_invariant ⟨3, 45, 0⟩ (by decide) (by decide)).1 none,
    (clock_state_invariant ⟨3, 45, 0⟩ (by decide) (by decide)).2 2 3 (by decide) (by decide)⟩

/-- Iterating the `animate` callback chain with a stop target: at most `n`
ticks are performed, and the run reports whether the chain stopped (the
stop target was reached) within them. -/
def animateN (stop : ℕ × ℕ) : ℕ → ClockState → ClockState × Bool
  | 0, st => (st, false)
  | n + 1, st =>
    let p := animate (some stop) st
    if p.2 then p else animateN stop n p.1

lemma animate_advance (stop : Option (ℕ × ℕ)) (st : ClockState)
    (h1 : st.hour ≤ 11) (h2 : st.minute ≤ 59)
    (hne : stop ≠ some (st.hour, st.minute)) :
    (animate stop st).1.hour * 60 + (animate stop st).1.minute
        = (st.hour * 60 + st.minute + 1) % 720 ∧
    (animate stop st).1.hour ≤ 11 ∧ (animate stop st).1.minute ≤ 59 ∧
    (animate stop st).1.second = st.second ∧ (animate stop st).2 = false := by
  simp only [animate, if_neg hne]
  split <;> simp <;> omega

lemma animateN_succ_not_stopped (t : ℕ × ℕ) (n : ℕ) (st : ClockState)
    (h : (animate (some t) st).2 = false) :
    animateN t (n + 1) st = animateN t n (animate (some t) st).1 := by
  simp [animateN, h]

lemma animateN_reaches (t : ℕ × ℕ) (ht1 : t.1 ≤ 11) (ht2 : t.2 ≤ 59) :
    ∀ (n : ℕ) (st : ClockState), st.hour ≤ 11 → st.minute ≤ 59 →
      (t.1 * 60 + t.2 + 720 - (st.hour * 60 + st.minute)) % 720 < n →
      animateN t n st = (⟨t.1, t.2, st.second⟩, true) := by
  intro n
  induction n with
  | zero => intro st _ _ hd; omega
  | succ n ih =>
    intro st h1 h2 hd
    by_cases heq : (t.1, t.2) = (st.hour, st.minute)
    · obtain ⟨he1, he2⟩ := Prod.mk.injEq .. ▸ heq
      have hstop : some t = some (st.hour, st.minute) := by
        rw [← he1, ← he2]
      have hstep : animate (some t) st = (st, true) := by
        simp [animate, hstop]
      simp [animateN, hstep, he1, he2]
    · have hne : some t ≠ some (st.hour, st.minute) := by
        intro hcontra
        exact heq (Option.some.inj hcontra ▸ rfl)
      obtain ⟨hidx, hh1, hh2, hsec, hrun⟩ := animate_advance (some t) st h1 h2 hne
      have hne' : t.1 * 60 + t.2 ≠ st.hour * 60 + st.minute := by
        intro hcontra
        exact heq (by
          have : t.1 = st.hour ∧ t.2 = st.minute := by omega
          rw [this.1, this.2])
      rw [animateN_succ_not_stopped t n st hrun,
        ih (animate (some t) st).1 hh1 hh2 (by omega), hsec]

/-- C10: from any state with `hour ∈ [0,11]`, `minute ∈ [0,59]` and any
stop target in the same range, the `animate` callback chain stops within
720 ticks, with the clock reading exactly the target. -/
theorem animate_terminates (st : ClockState) (t : ℕ × ℕ)
    (h1 : st.hour ≤ 11) (h2 : st.minute ≤ 59)
    (ht1 : t.1 ≤ 11) (ht2 : t.2 ≤ 59) :
    animateN t 720 st = (⟨t.1, t.2, st.second⟩, true) := by
  exact animateN_reaches t ht1 ht2 720 st h1 h2 (by omega)

/-- Witness for C10: from `(11, 59)` the chain stops at the target
`(0, 0)` within 720 ticks. -/
theorem animate_terminates_witness :
    ((11 : ℕ) ≤ 11 ∧ (59 : ℕ) ≤ 59 ∧ (0 : ℕ) ≤ 11 ∧ (0 : ℕ) ≤ 59) ∧
    animateN (0, 0) 720 ⟨11, 59, 7⟩ = (⟨0, 0, 7⟩, true) :=
  ⟨⟨by decide, by decide, by decide, by decide⟩,
    animate_terminates ⟨11, 59, 7⟩ (0, 0) (by decide) (by decide) (by decide) (by decide)⟩

/-- A clock hand as produced by `ClockTest.painthms`: its angle in radians
is `angleCoeff * π` (every angle the routine computes is a rational
multiple of π), and `length` is the factor scaling `cos`/`sin` in the
hand's endpoint. -/
structure Hand where
  angleCoeff : ℚ
  length : ℚ
deriving DecidableEq

/-- `ClockTest.painthms` (lines 229–253): the hour hand at angle
`π/2 - π/6 * (hour + hour_offset/60)` with endpoint scale `0.70` and the
minute hand at angle `π/2 - π/30 * (minute + second_offset/60)` with
endpoint scale `0.90`, where in easy mode `hour_offset` and
`second_offset` are zero and otherwise they are `minute` and `second`.
Angles are recorded as their coefficient of π. -/
def painthms (easy : Bool) (hour minute second : ℕ) : Hand × Hand :=
  let hour_offset : ℚ := if easy then 0 else minute
  let second_offset : ℚ := if easy then 0 else second
  (⟨1/2 - (hour + hour_offset/60)/6, 7/10⟩,
   ⟨1/2 - (minute + second_offset/60)/30, 9/10⟩)

/-- C4: in smooth (non-easy) rendering the hour hand's angle is
`π/2 - (π/6)(hour + minute/60)` and the minute hand's is
`π/2 - (π/30)(minute + second/60)` (stated via the π-coefficients); in
easy mode the fractional offsets vanish; `hour = 3, minute = 0` puts the
hour hand at angle `0` and `hour = 0, minute = 0` at `π/2`; the hour hand
has length `0.70` and the minute hand `0.90` of the radius. -/
theorem painthms_angles_and_lengths :
    (∀ h m s : ℕ,
      (painthms false h m s).1.angleCoeff = 1/2 - (h + (m : ℚ)/60)/6 ∧
      (painthms false h m s).2.angleCoeff = 1/2 - (m + (s : ℚ)/60)/30) ∧
    (∀ h m s : ℕ,
      (painthms true h m s).1.angleCoeff = 1/2 - (h : ℚ)/6 ∧
      (painthms true h m s).2.angleCoeff = 1/2 - (m : ℚ)/30) ∧
    (∀ s : ℕ, (painthms false 3 0 s).1.angleCoeff = 0) ∧
    (∀ s : ℕ, (painthms false 0 0 s).1.angleCoeff = 1/2) ∧
    (∀ (e : Bool) (h m s : ℕ),
      (painthms e h m s).1.length = 7/10 ∧ (painthms e h m s).2.length = 9/10) := by
  refine ⟨fun h m s => ⟨rfl, rfl⟩, fun h m s => ⟨by simp [painthms], by simp [painthms]⟩,
    fun s => by norm_num [painthms], fun s => by norm_num [painthms],
    fun e h m s => ⟨rfl, rfl⟩⟩

/-- The outcome of one quiz round as seen by the `poll` loop: either the
dialog was cancelled (`still_going` set to `False`) or it was answered
with the given correctness flag. -/
inductive RoundOutcome
  | cancelled
  | answered (correct : Bool)
deriving DecidableEq

/-- The `while True` loop of `ClockTest.poll` (lines 296–313), abstracted
over the outcomes of the successive quiz dialogs: an answered round
increments `correct` or `wrong` according to the dialog's flag, and a
dialog reporting `still_going = False` breaks the loop without scoring.
Returns the final `(correct, wrong)` tally. -/
def pollLoop : ℕ → ℕ → List RoundOutcome → ℕ × ℕ
  | c, w, [] => (c, w)
  | c, w, RoundOutcome.cancelled :: _ => (c, w)
  | c, w, RoundOutcome.answered true :: rest => pollLoop (c + 1) w rest
  | c, w, RoundOutcome.answered false :: rest => pollLoop c (w + 1) rest

/-- The final message of `ClockTest.poll` (line 314):
`"You got {} of {} correct!".format(correct, correct + wrong)`. -/
def scoreMessage (correct wrong : ℕ) : String :=
  "You got " ++ toString correct ++ " of " ++ toString (correct + wrong) ++ " correct!"

lemma pollLoop_append (bs : List Bool) (rest : List RoundOutcome) :
    ∀ c w : ℕ, pollLoop c w (bs.map RoundOutcome.answered ++
        RoundOutcome.cancelled :: rest)
      = (c + bs.count true, w + bs.count false) := by
  induction bs with
  | nil => intro c w; simp [pollLoop]
  | cons b t ih =>
    intro c w
    cases b <;> simp [pollLoop, ih, List.count_cons] <;> omega

lemma count_true_add_count_false (bs : List Bool) :
    bs.count true + bs.count false = bs.length := by
  induction bs with
  | nil => rfl
  | cons b t ih => cases b <;> simp [List.count_cons] <;> omega

/-- C7: a run of the `poll` loop in which `N` rounds are answered (with
`K` of them correct) and the next dialog is cancelled tallies exactly
`(K, N - K)` and reports exactly `"You got K of N correct!"`; a cancelled
dialog increments neither counter. -/
theorem poll_score_spec :
    (∀ (bs : List Bool) (rest : List RoundOutcome),
      pollLoop 0 0 (bs.map RoundOutcome.answered ++ RoundOutcome.cancelled :: rest)
        = (bs.count true, bs.count false) ∧
      scoreMessage
        (pollLoop 0 0 (bs.map RoundOutcome.answered ++ RoundOutcome.cancelled :: rest)).1
        (pollLoop 0 0 (bs.map RoundOutcome.answered ++ RoundOutcome.cancelled :: rest)).2
        = "You got " ++ toString (bs.count true) ++ " of " ++
            toString bs.length ++ " correct!") ∧
    (∀ (c w : ℕ) (rest : List RoundOutcome),
      pollLoop c w (RoundOutcome.cancelled :: rest) = (c, w)) := by
  constructor
  · intro bs rest
    have h := pollLoop_append bs rest 0 0
    simp only [Nat.zero_add] at h
    refine ⟨h, ?_⟩
    rw [h]
    simp [scoreMessage, count_true_add_count_false bs]
  · intro c w rest
    rfl

/-- `QuestionWindow.__init__` (lines 415–428): reads `time_answer` from
the keyword arguments; if it is absent or `None`, the constructor calls
`exit(1)`, terminating the process with status 1; otherwise construction
proceeds, carrying the expected answer. -/
def questionWindowInit (time_answer : Option (ℕ × ℕ)) : Except ℕ (ℕ × ℕ) :=
  match time_answer with
  | none => Except.error 1
  | some ta => Except.ok ta

/-- C8: constructing a `QuestionWindow` without an expected answer
terminates the process with exit status 1, which is nonzero; with an
expected answer, construction succeeds. -/
theorem questionWindow_requires_answer :
    questionWindowInit none = Except.error 1 ∧ 0 < 1 ∧
    (∀ ta : ℕ × ℕ, questionWindowInit (some ta) = Except.ok ta) :=
  ⟨rfl, Nat.zero_lt_one, fun _ => rfl⟩

/-- Python's `\d` on the entry's text: an ASCII digit `0`–`9`, tested on
the character's code point. -/
def isDig (c : Char) : Bool := 48 ≤ c.toNat && c.toNat ≤ 57

/-- `int` on a digit character. -/
def dval (c : Char) : ℕ := c.toNat - 48

/-- The tail pattern `([0-5]\d)$` of the validation regex: exactly two
characters remain, the first in the class `[0-5]` (code points 48–53), the
second a digit; returns `int(group 2)`.  `$` is modelled as end of input:
the single-line entry widget supplies no trailing newline. -/
def matchMin : List Char → Option ℕ
  | [a, b] =>
    if (48 ≤ a.toNat && a.toNat ≤ 53) && isDig b then
      some (10 * dval a + dval b)
    else none
  | _ => none

/-- `\D?([0-5]\d)$` with the greedy optional separator: a leading
non-digit is consumed first, falling back to the empty match if the rest
of the pattern then fails. -/
def matchSepMin : List Char → Option ℕ
  | [] => none
  | c :: rest =>
    if isDig c then matchMin (c :: rest)
    else
      match matchMin rest with
      | some m => some m
      | none => matchMin (c :: rest)

/-- The two-digit alternative of the greedy hour group `(^[012]?\d)`: a
character of the class `[012]` (code points 48–50) followed by a digit,
then the rest of the pattern on the remaining input. -/
def try2 : List Char → Option (ℕ × ℕ)
  | a :: b :: rest =>
    if (48 ≤ a.toNat && a.toNat ≤ 50) && isDig b then
      match matchSepMin rest with
      | some m => some (10 * dval a + dval b, m)
      | none => none
    else none
  | _ => none

/-- The one-digit alternative of the hour group: `[012]?` matches empty
and `\d` takes the first character. -/
def try1 : List Char → Option (ℕ × ℕ)
  | a :: rest =>
    if isDig a then
      match matchSepMin rest with
      | some m => some (dval a, m)
      | none => none
    else none
  | [] => none

/-- `re.search(r'(^[012]?\d)\D?([0-5]\d)$', s)` under Python's
leftmost-greedy backtracking: the `^` inside group 1 anchors any match at
position 0, the two-digit hour is preferred, and on success
`(int(group 1), int(group 2))` is returned. -/
def searchTime (s : List Char) : Option (ℕ × ℕ) :=
  match try2 s with
  | some hm => some hm
  | none => try1 s

/-- `QuestionWindow.validate` (lines 455–471), with the mutation of
`self.correct_answer` made explicit: given the expected `time_answer` and
the current flag, return the Boolean result and the new flag.  A failed
search raises `AttributeError`, caught to return `False`; a matched hour
above 24, or hour 24 with nonzero minutes, also returns `False`; in both
cases the flag is untouched.  On acceptance the flag becomes
`(h % 12, m) == self.time_answer` and the result is `True`. -/
def validate (time_answer : ℕ × ℕ) (correct_answer : Bool) (s : List Char) :
    Bool × Bool :=
  match searchTime s with
  | none => (false, correct_answer)
  | some (h, m) =>
    if (h = 24 ∧ 0 < m) ∨ 24 < h then (false, correct_answer)
    else (true, decide ((h % 12, m) = time_answer))

/-- An hour numeral as the claim describes it: one or two digits. -/
def hourNumeral : List Char → Option ℕ
  | [a] => if isDig a then some (dval a) else none
  | [a, b] => if isDig a && isDig b then some (10 * dval a + dval b) else none
  | _ => none

/-- A two-digit minute `00`–`59` as the claim describes it. -/
def minuteNumeral : List Char → Option ℕ
  | [a, b] =>
    if isDig a && isDig b && decide (dval a ≤ 5) then
      some (10 * dval a + dval b)
    else none
  | _ => none

/-- The separator the claim allows: absent, or a single non-digit. -/
def sepOK (scs : List Char) : Prop :=
  scs = [] ∨ ∃ c, scs = [c] ∧ isDig c = false

/-- The claim's grammar with the parsed values exposed: the input splits
into an hour numeral of value `h ≤ 24`, an optional single non-digit
separator, and a two-digit minute of value `m`, with hour 24 allowed only
together with minute 00. -/
def specTime (s : List Char) (h m : ℕ) : Prop :=
  ∃ hcs scs mcs, s = hcs ++ scs ++ mcs ∧
    hourNumeral hcs = some h ∧ h ≤ 24 ∧
    minuteNumeral mcs = some m ∧ sepOK scs ∧ (h = 24 → m = 0)

/-- The claim's grammar: an hour 0–24, an optional single non-digit
separator, a two-digit minute 00–59, hour 24 only as 24:00. -/
def specAccepts (s : List Char) : Prop := ∃ h m, specTime s h m

lemma matchMin_eq_minuteNumeral (rs : List Char) :
    matchMin rs = minuteNumeral rs := by
  cases rs with
  | nil => rfl
  | cons a t =>
    cases t with
    | nil => rfl
    | cons b u =>
      cases u with
      | cons c v => rfl
      | nil =>
        simp only [matchMin, minuteNumeral, Bool.and_eq_true, decide_eq_true_iff,
          isDig, dval]
        split_ifs <;> first | rfl | (exfalso; omega)

lemma minuteNumeral_head_not_dig (c : Char) (rest : List Char)
    (hc : isDig c = false) : minuteNumeral (c :: rest) = none := by
  cases rest with
  | nil => rfl
  | cons d u =>
    cases u with
    | cons e v => rfl
    | nil =>
      simp [minuteNumeral, hc]

lemma matchSepMin_eq_some (rs : List Char) (m : ℕ) :
    matchSepMin rs = some m ↔
      minuteNumeral rs = some m ∨
      ∃ c rs', rs = c :: rs' ∧ isDig c = false ∧ minuteNumeral rs' = some m := by
  cases rs with
  | nil => simp [matchSepMin, minuteNumeral]
  | cons c rest =>
    by_cases hc : isDig c = true
    · simp only [matchSepMin, if_pos hc, matchMin_eq_minuteNumeral]
      constructor
      · exact fun h => Or.inl h
      · rintro (h | ⟨c', rs', heq, hnd, _⟩)
        · exact h
        · rw [List.cons.injEq] at heq
          rw [heq.1] at hc
          rw [hc] at hnd
          exact absurd hnd (by simp)
    · have hc' : isDig c = false := by
        cases hcc : isDig c
        · rfl
        · exact absurd hcc hc
      simp only [matchSepMin, if_neg hc]
      have hnone : matchMin (c :: rest) = none := by
        rw [matchMin_eq_minuteNumeral]
        exact minuteNumeral_head_not_dig c rest hc'
      constructor
      · intro h
        cases hm : matchMin rest with
        | none =>
          rw [hm, hnone] at h
          exact absurd h (by simp)
        | some m' =>
          rw [hm] at h
          simp only [Option.some.injEq] at h
          refine Or.inr ⟨c, rest, rfl, hc', ?_⟩
          rw [← matchMin_eq_minuteNumeral, hm, h]
      · rintro (h | ⟨c', rs', heq, _, hmin⟩)
        · rw [minuteNumeral_head_not_dig c rest hc'] at h
          exact absurd h (by simp)
        · rw [List.cons.injEq] at heq
          rw [← heq.2] at hmin
          rw [← matchMin_eq_minuteNumeral] at hmin
          rw [hmin]

lemma matchSepMin_singleton (e : Char) : matchSepMin [e] = none := by
  by_cases he : isDig e = true
  · simp [matchSepMin, he, matchMin]
  · have he' : isDig e = false := by
      cases hcc : isDig e
      · rfl
      · exact absurd hcc he
    simp [matchSepMin, he', matchMin]

lemma isDig_of_class (a : Char) (h1 : 48 ≤ a.toNat) (h2 : a.toNat ≤ 50) :
    isDig a = true := by
  simp only [isDig, Bool.and_eq_true, decide_eq_true_iff]
  omega

lemma hourNumeral_one (a : Char) (ha : isDig a = true) :
    hourNumeral [a] = some (dval a) := by
  simp [hourNumeral, ha]

lemma hourNumeral_two (a b : Char) (ha : isDig a = true) (hb : isDig b = true) :
    hourNumeral [a, b] = some (10 * dval a + dval b) := by
  simp [hourNumeral, ha, hb]

lemma minuteNumeral_pair (d e : Char) (hd : isDig d = true) (he : isDig e = true)
    (hd5 : dval d ≤ 5) : minuteNumeral [d, e] = some (10 * dval d + dval e) := by
  simp [minuteNumeral, hd, he, hd5]

lemma try2_some (s : List Char) (h m : ℕ) (ht : try2 s = some (h, m)) :
    ∃ a b rest, s = a :: b :: rest ∧ 48 ≤ a.toNat ∧ a.toNat ≤ 50 ∧
      isDig b = true ∧ matchSepMin rest = some m ∧ h = 10 * dval a + dval b := by
  cases s with
  | nil => simp [try2] at ht
  | cons a t =>
    cases t with
    | nil => simp [try2] at ht
    | cons b rest =>
      simp only [try2] at ht
      split_ifs at ht with hcnd
      · cases hsm : matchSepMin rest with
        | none => rw [hsm] at ht; simp at ht
        | some mm =>
          rw [hsm] at ht
          simp only [Option.some.injEq, Prod.mk.injEq] at ht
          simp only [Bool.and_eq_true, decide_eq_true_iff] at hcnd
          exact ⟨a, b, rest, rfl, hcnd.1.1, hcnd.1.2, hcnd.2,
            by rw [hsm, ht.2], ht.1.symm⟩

lemma try1_some (s : List Char) (h m : ℕ) (ht : try1 s = some (h, m)) :
    ∃ a rest, s = a :: rest ∧ isDig a = true ∧
      matchSepMin rest = some m ∧ h = dval a := by
  cases s with
  | nil => simp [try1] at ht
  | cons a rest =>
    simp only [try1] at ht
    split_ifs at ht with hd
    · cases hsm : matchSepMin rest with
      | none => rw [hsm] at ht; simp at ht
      | some mm =>
        rw [hsm] at ht
        simp only [Option.some.injEq, Prod.mk.injEq] at ht
        exact ⟨a, rest, rfl, hd, by rw [hsm, ht.2], ht.1.symm⟩

lemma searchTime_some_spec (s : List Char) (h m : ℕ)
    (hs : searchTime s = some (h, m)) :
    ∃ hcs scs mcs, s = hcs ++ scs ++ mcs ∧ hourNumeral hcs = some h ∧
      minuteNumeral mcs = some m ∧ sepOK scs := by
  unfold searchTime at hs
  cases ht2 : try2 s with
  | some hm =>
    rw [ht2] at hs
    simp only [Option.some.injEq] at hs
    rw [hs] at ht2
    obtain ⟨a, b, rest, hsplit, h48, h50, hb, hsm, hh⟩ := try2_some s h m ht2
    have hda : isDig a = true := isDig_of_class a h48 h50
    rcases (matchSepMin_eq_some rest m).1 hsm with hmin | ⟨c, rs, hrest, hnd, hmin⟩
    · exact ⟨[a, b], [], rest, by simp [hsplit],
        by rw [hh]; exact hourNumeral_two a b hda hb, hmin, Or.inl rfl⟩
    · exact ⟨[a, b], [c], rs, by simp [hsplit, hrest],
        by rw [hh]; exact hourNumeral_two a b hda hb, hmin,
        Or.inr ⟨c, rfl, hnd⟩⟩
  | none =>
    rw [ht2] at hs
    obtain ⟨a, rest, hsplit, hda, hsm, hh⟩ := try1_some s h m hs
    rcases (matchSepMin_eq_some rest m).1 hsm with hmin | ⟨c, rs, hrest, hnd, hmin⟩
    · exact ⟨[a], [], rest, by simp [hsplit],
        by rw [hh]; exact hourNumeral_one a hda, hmin, Or.inl rfl⟩
    · exact ⟨[a], [c], rs, by simp [hsplit, hrest],
        by rw [hh]; exact hourNumeral_one a hda, hmin,
        Or.inr ⟨c, rfl, hnd⟩⟩

lemma searchTime_of_spec (s : List Char) (h m : ℕ) (hsp : specTime s h m) :
    searchTime s = some (h, m) := by
  obtain ⟨hcs, scs, mcs, hsplit, hhour, hle, hmin, hsep, h24⟩ := hsp
  obtain ⟨d, e, hmcs, hd, he, hd5, hmval⟩ : ∃ d e, mcs = [d, e] ∧
      isDig d = true ∧ isDig e = true ∧ dval d ≤ 5 ∧ m = 10 * dval d + dval e := by
    cases mcs with
    | nil => simp [minuteNumeral] at hmin
    | cons d t =>
      cases t with
      | nil => simp [minuteNumeral] at hmin
      | cons e u =>
        cases u with
        | cons f v => simp [minuteNumeral] at hmin
        | nil =>
          simp only [minuteNumeral] at hmin
          split_ifs at hmin with hcnd
          · simp only [Option.some.injEq] at hmin
            simp only [Bool.and_eq_true, decide_eq_true_iff] at hcnd
            exact ⟨d, e, rfl, hcnd.1.1, hcnd.1.2, hcnd.2, hmin.symm⟩
  have hsm : matchSepMin (scs ++ [d, e]) = some m := by
    rcases hsep with rfl | ⟨c, rfl, hnd⟩
    · rw [List.nil_append, matchSepMin_eq_some]
      exact Or.inl (by rw [minuteNumeral_pair d e hd he hd5, hmval])
    · rw [matchSepMin_eq_some]
      exact Or.inr ⟨c, [d, e], by simp,
        hnd, by rw [minuteNumeral_pair d e hd he hd5, hmval]⟩
  have hhcs : (∃ a, hcs = [a] ∧ isDig a = true ∧ h = dval a) ∨
      (∃ a b, hcs = [a, b] ∧ isDig a = true ∧ isDig b = true ∧
        h = 10 * dval a + dval b) := by
    cases hcs with
    | nil => simp [hourNumeral] at hhour
    | cons a t =>
      cases t with
      | nil =>
        simp only [hourNumeral] at hhour
        split_ifs at hhour with hcnd
        · simp only [Option.some.injEq] at hhour
          exact Or.inl ⟨a, rfl, hcnd, hhour.symm⟩
      | cons b u =>
        cases u with
        | nil =>
          simp only [hourNumeral] at hhour
          split_ifs at hhour with hcnd
          · simp only [Option.some.injEq] at hhour
            simp only [Bool.and_eq_true] at hcnd
            exact Or.inr ⟨a, b, rfl, hcnd.1, hcnd.2, hhour.symm⟩
        | cons c v => simp [hourNumeral] at hhour
  rcases hhcs with ⟨a, rfl, hda, hh⟩ | ⟨a, b, rfl, hda, hdb, hh⟩
  · rw [hsplit, hmcs]
    have htry2 : try2 (a :: (scs ++ [d, e])) = none := by
      rcases hsep with rfl | ⟨c, rfl, hnd⟩
      · simp only [List.nil_append, try2]
        split_ifs with hcnd
        · rw [matchSepMin_singleton]
        · rfl
      · simp only [List.cons_append, List.nil_append, try2]
        rw [if_neg]
        simp only [Bool.and_eq_true, decide_eq_true_iff]
        intro hcontra
        rw [hnd] at hcontra
        exact Bool.false_ne_true hcontra.2
    show searchTime ([a] ++ scs ++ [d, e]) = some (h, m)
    have hlist : ([a] ++ scs ++ [d, e] : List Char) = a :: (scs ++ [d, e]) := by simp
    rw [hlist]
    unfold searchTime
    rw [htry2]
    simp only [try1, hda, if_true, hsm, hh]
  · rw [hsplit, hmcs]
    have ha50 : a.toNat ≤ 50 := by
      have h1 : dval a ≤ 2 := by
        have hb9 : dval b ≤ 9 := by
          simp only [isDig, Bool.and_eq_true, decide_eq_true_iff] at hdb
          simp only [dval]
          omega
        omega
      simp only [isDig, Bool.and_eq_true, decide_eq_true_iff] at hda
      simp only [dval] at h1
      omega
    have ha48 : 48 ≤ a.toNat := by
      simp only [isDig, Bool.and_eq_true, decide_eq_true_iff] at hda
      exact hda.1
    have hcnd : ((48 ≤ a.toNat && a.toNat ≤ 50) && isDig b) = true := by
      simp only [Bool.and_eq_true, decide_eq_true_iff]
      exact ⟨⟨ha48, ha50⟩, hdb⟩
    show searchTime ([a, b] ++ scs ++ [d, e]) = some (h, m)
    have hlist : ([a, b] ++ scs ++ [d, e] : List Char)
        = a :: b :: (scs ++ [d, e]) := by simp
    rw [hlist]
    unfold searchTime
    have htry2 : try2 (a :: b :: (scs ++ [d, e])) = some (h, m) := by
      simp only [try2, hcnd, if_true, hsm, hh]
    rw [htry2]

/-- C3: the world-to-viewport map is inverted exactly by
`X ↦ (X - c_1)/f`, `Y ↦ (c_2 - Y)/f`: the round trip returns the original
world point. -/
theorem mapper_round_trip (world viewport : Rect)
    (hx : world.xmin < world.xmax) (hy : world.ymin < world.ymax)
    (hX : viewport.xmin < viewport.xmax) (hY : viewport.ymin < viewport.ymax)
    (x y : ℚ) :
    ((windowToViewport (mapper world viewport) x y).1 - (mapper world viewport).c_1) /
        (mapper world viewport).f = x ∧
    ((mapper world viewport).c_2 - (windowToViewport (mapper world viewport) x y).2) /
        (mapper world viewport).f = y := by
  have hf := (mapper_f_pos world viewport hx hy hX hY).ne'
  constructor
  · rw [div_eq_iff hf]
    simp only [windowToViewport]
    ring
  · rw [div_eq_iff hf]
    simp only [windowToViewport]
    ring

/-- Witness for C3 at the world point `(1/3, -2/5)`. -/
theorem mapper_round_trip_witness :
    ((-1 : ℚ) < 1 ∧ (25 : ℚ) < 375) ∧
    (((windowToViewport (mapper ⟨-1, -1, 1, 1⟩ ⟨25, 25, 375, 375⟩) (1/3) (-2/5)).1 -
        (mapper ⟨-1, -1, 1, 1⟩ ⟨25, 25, 375, 375⟩).c_1) /
        (mapper ⟨-1, -1, 1, 1⟩ ⟨25, 25, 375, 375⟩).f = 1/3 ∧
      ((mapper ⟨-1, -1, 1, 1⟩ ⟨25, 25, 375, 375⟩).c_2 -
        (windowToViewport (mapper ⟨-1, -1, 1, 1⟩ ⟨25, 25, 375, 375⟩) (1/3) (-2/5)).2) /
        (mapper ⟨-1, -1, 1, 1⟩ ⟨25, 25, 375, 375⟩).f = -2/5) :=
  ⟨⟨by decide, by decide⟩,
    mapper_round_trip ⟨-1, -1, 1, 1⟩ ⟨25, 25, 375, 375⟩
      (by decide) (by decide) (by decide) (by decide) (1/3) (-2/5)⟩


lemma validate_eq_none (ta : ℕ × ℕ) (flag : Bool) (s : List Char)
    (hs : searchTime s = none) : validate ta flag s = (false, flag) := by
  unfold validate
  rw [hs]

lemma validate_eq_some (ta : ℕ × ℕ) (flag : Bool) (s : List Char) (h m : ℕ)
    (hs : searchTime s = some (h, m)) :
    validate ta flag s =
      if (h = 24 ∧ 0 < m) ∨ 24 < h then (false, flag)
      else (true, decide ((h % 12, m) = ta)) := by
  unfold validate
  rw [hs]

/-- C1: `QuestionWindow.validate` accepts an input exactly when it is an
hour 0–24 followed by a two-digit minute 00–59 with an optional single
non-digit separator, hour 24 only together with minute 00; on acceptance
the correctness flag is set exactly when `(hour % 12, minute)` equals the
expected answer; and concretely: "3:15" against expected `(3, 15)` is
judged correct, "15:15" is judged correct (hour mod 12), "24:05" is
rejected, "9" is rejected. -/
theorem validate_matches_grammar :
    (∀ (s : List Char) (ta : ℕ × ℕ) (flag : Bool),
      (validate ta flag s).1 = true ↔ specAccepts s) ∧
    (∀ (s : List Char) (ta : ℕ × ℕ) (flag : Bool) (h m : ℕ),
      searchTime s = some (h, m) → (validate ta flag s).1 = true →
      ((validate ta flag s).2 = true ↔ (h % 12, m) = ta)) ∧
    validate (3, 15) false ['3', ':', '1', '5'] = (true, true) ∧
    validate (3, 15) false ['1', '5', ':', '1', '5'] = (true, true) ∧
    (∀ (ta : ℕ × ℕ) (flag : Bool),
      (validate ta flag ['2', '4', ':', '0', '5']).1 = false) ∧
    (∀ (ta : ℕ × ℕ) (flag : Bool),
      (validate ta flag ['9']).1 = false) := by
  refine ⟨?_, ?_, by decide, by decide, ?_, ?_⟩
  · intro s ta flag
    constructor
    · intro hv
      cases hs : searchTime s with
      | none =>
        rw [validate_eq_none ta flag s hs] at hv
        simp at hv
      | some hm =>
        obtain ⟨h, m⟩ := hm
        rw [validate_eq_some ta flag s h m hs] at hv
        by_cases hcond : (h = 24 ∧ 0 < m) ∨ 24 < h
        · rw [if_pos hcond] at hv; simp at hv
        · obtain ⟨hcs, scs, mcs, hsplit, hhour, hmin, hsep⟩ :=
            searchTime_some_spec s h m hs
          have hle : h ≤ 24 := by
            by_contra hgt
            exact hcond (Or.inr (by omega))
          have h24 : h = 24 → m = 0 := by
            intro he
            by_contra hm0
            exact hcond (Or.inl ⟨he, by omega⟩)
          exact ⟨h, m, hcs, scs, mcs, hsplit, hhour, hle, hmin, hsep, h24⟩
    · rintro ⟨h, m, hsp⟩
      have hs := searchTime_of_spec s h m hsp
      obtain ⟨hcs, scs, mcs, _, _, hle, _, _, h24⟩ := hsp
      have hnot : ¬ ((h = 24 ∧ 0 < m) ∨ 24 < h) := by
        rintro (⟨he, hm0⟩ | hgt)
        · have := h24 he
          omega
        · omega
      rw [validate_eq_some ta flag s h m hs, if_neg hnot]
  · intro s ta flag h m hs hv
    rw [validate_eq_some ta flag s h m hs] at hv ⊢
    by_cases hcond : (h = 24 ∧ 0 < m) ∨ 24 < h
    · rw [if_pos hcond] at hv
      simp at hv
    · rw [if_neg hcond]
      simp
  · intro ta flag
    have hs : searchTime ['2', '4', ':', '0', '5'] = some (24, 5) := by decide
    simp [validate, hs]
  · intro ta flag
    have hs : searchTime ['9'] = none := by decide
    simp [validate, hs]

/-- Witness for C1: "15:15" parses to `(15, 15)` and is judged correct
against expected `(3, 15)` exactly because `15 % 12 = 3`. -/
theorem validate_matches_grammar_witness :
    (searchTime ['1', '5', ':', '1', '5'] = some (15, 15) ∧
      (validate (3, 15) false ['1', '5', ':', '1', '5']).1 = true) ∧
    ((validate (3, 15) false ['1', '5', ':', '1', '5']).2 = true ↔
      (15 % 12, 15) = ((3 : ℕ), (15 : ℕ))) :=
  ⟨⟨by decide, by decide⟩,
    validate_matches_grammar.2.1 ['1', '5', ':', '1', '5'] (3, 15) false 15 15
      (by decide) (by decide)⟩

/-- The Boolean fields of `QuestionWindow` that a submit can touch:
whether the dialog window still exists, the `correct_answer` flag read by
`apply` and by `poll`, and the `still_going` flag. -/
structure DialogState where
  isOpen : Bool
  correct_answer : Bool
  still_going : Bool
deriving DecidableEq

/-- `QuestionWindow.ok` (lines 473–488): if `validate` fails, the handler
shows a warning, re-selects the entry text and returns — the dialog stays
open and no field changes; if it succeeds, the flag has been set by
`validate`, `apply` reports the outcome, and the window is destroyed. -/
def ok (time_answer : ℕ × ℕ) (st : DialogState) (s : List Char) : DialogState :=
  let v := validate time_answer st.correct_answer s
  if v.1 then { st with correct_answer := v.2, isOpen := false } else st

/-- C9: for every malformed input — no match of the validation regex, or
hour above 24, or hour 24 with nonzero minutes — `validate` returns
`False`, the correctness flag keeps its previous value, and the submit
handler leaves the whole dialog state unchanged (the dialog stays open
after the warning). -/
theorem malformed_input_recoverable (ta : ℕ × ℕ) (st : DialogState)
    (s : List Char)
    (hbad : searchTime s = none ∨
      ∃ h m, searchTime s = some (h, m) ∧ (24 < h ∨ (h = 24 ∧ 0 < m))) :
    (validate ta st.correct_answer s).1 = false ∧
    (validate ta st.correct_answer s).2 = st.correct_answer ∧
    ok ta st s = st := by
  have hv : validate ta st.correct_answer s = (false, st.correct_answer) := by
    rcases hbad with hnone | ⟨h, m, hsome, hcond⟩
    · exact validate_eq_none ta st.correct_answer s hnone
    · rw [validate_eq_some ta st.correct_answer s h m hsome, if_pos (by tauto)]
  refine ⟨by rw [hv], by rw [hv], ?_⟩
  simp [ok, hv]

/-- Witness for C9 at the rejected input "24:05". -/
theorem malformed_input_recoverable_witness :
    (searchTime ['2', '4', ':', '0', '5'] = some (24, 5) ∧ (0 : ℕ) < 5) ∧
    ok (3, 15) ⟨true, false, true⟩ ['2', '4', ':', '0', '5'] =
      ⟨true, false, true⟩ :=
  ⟨⟨by decide, by decide⟩,
    (malformed_input_recoverable (3, 15) ⟨true, false, true⟩
      ['2', '4', ':', '0', '5']
      (Or.inr ⟨24, 5, by decide, Or.inr ⟨rfl, by decide⟩⟩)).2.2⟩

end AnalogClock
